import Mathlib

/-!
Verification development for the silkandsaffron webhook repository.

The Python source (`bot/views.py`, `bot/models.py`) is shallowly embedded
below.  Strings are modelled as `List Char` (`Str`); Python floats used for
match scores and prices are modelled as `ℚ` (all scores in the source are
small decimal literals or small-denominator ratios, for which float and
rational comparisons agree); the database queryset is modelled as an input
`List Page` in queryset order; `random.choice` is modelled by an explicit
index into the candidate list; the process-global `LAST_SUGGESTED_PRODUCTS`
list is threaded as explicit state.
-/

/-- Strings are modelled as lists of characters. -/
abbrev Str := List Char

/-- Python `\s` / `str.strip` whitespace, restricted to the ASCII whitespace
characters (the inputs of interest are ASCII; the Unicode extras of Python's
definition are immaterial to the matched keyword sets, which are ASCII). -/
def pyIsSpace (c : Char) : Bool :=
  c = ' ' || c = '\t' || c = '\n' || c = '\r' || c = '\x0b' || c = '\x0c'

/-- Python `\w` (word character), restricted to the ASCII range. -/
def pyIsWord (c : Char) : Bool :=
  c.isAlphanum || c = '_'

/-- ASCII lower-casing of one character, modelling Python `str.lower` (the
keyword tables in the source are all ASCII, so non-ASCII case folding never
influences a comparison). -/
def lowerChar (c : Char) : Char :=
  if 'A' ≤ c ∧ c ≤ 'Z' then Char.ofNat (c.toNat + 32) else c

/-- Python `str.lower`. -/
def toLowerStr (s : Str) : Str := s.map lowerChar

/-- Python `str.strip()`: drop leading and trailing whitespace. -/
def pyStrip (s : Str) : Str :=
  ((s.dropWhile pyIsSpace).reverse.dropWhile pyIsSpace).reverse

/-- Python's substring containment `needle in hay`. -/
def isSubstrOf (needle hay : Str) : Bool := decide (needle <:+: hay)

/-- Accumulator-based worker for `splitWS`; `cur` holds the current word,
reversed.  Structural recursion keeps every use kernel-computable. -/
def splitWSAux : Str → Str → List Str
  | cur, [] => if cur = [] then [] else [cur.reverse]
  | cur, c :: s =>
    if pyIsSpace c then
      if cur = [] then splitWSAux [] s else cur.reverse :: splitWSAux [] s
    else splitWSAux (c :: cur) s

/-- Python `str.split()` (no separator): split on runs of whitespace,
dropping empty pieces. -/
def splitWS (s : Str) : List Str := splitWSAux [] s

/-- Python `str.split(sep)` for a one-character separator: split at every
occurrence, keeping empty pieces (`"".split(c) == [""]`). -/
def splitOnChar (sep : Char) : Str → List Str
  | [] => [[]]
  | c :: s =>
    if c = sep then [] :: splitOnChar sep s
    else
      match splitOnChar sep s with
      | [] => [[c]]
      | w :: ws => (c :: w) :: ws

/-- Python `sep.join(pieces)`. -/
def joinWith (sep : Str) : List Str → Str
  | [] => []
  | [w] => w
  | w :: ws => w ++ sep ++ joinWith sep ws

/-- views.py line 112: the fixed Romanized-Urdu token list of
`detect_language`. -/
def urdu_words : List Str :=
  ["mujhe".toList, "kaun".toList, "kon".toList, "kaha".toList,
   "dikhao".toList, "dikho".toList, "kya".toList, "kaise".toList,
   "batao".toList, "chahiye".toList, "hai".toList, "ki".toList, "ap".toList]

/-- views.py line 109: `re.search(r"[؀-ۿ]", text)` — the text
contains a character in the Unicode Arabic-script block. -/
def hasArabicChar (s : Str) : Bool :=
  s.any (fun c => 0x0600 ≤ c.toNat ∧ c.toNat ≤ 0x06FF)

/-- views.py `detect_language` (lines 107-117): Arabic-script characters or
any Romanized-Urdu token occurring in the lower-cased text give `"urdu"`,
otherwise `"english"`. -/
def detect_language (text : Str) : String :=
  if hasArabicChar text then "urdu"
  else if urdu_words.any (fun w => isSubstrOf w (toLowerStr text)) then "urdu"
  else "english"

/-- views.py lines 208-210: append the selected url to
`LAST_SUGGESTED_PRODUCTS`, then `pop(0)` when the length exceeds 10. -/
def pushRecent (last_suggested : List Str) (url : Str) : List Str :=
  let l := last_suggested ++ [url]
  if 10 < l.length then l.drop 1 else l

/-- The two mutations the source applies to `LAST_SUGGESTED_PRODUCTS`:
the bounded append of `search_in_scraped_content` and the `clear()` of
`get_diverse_product_samples` (line 382). -/
inductive RecentOp where
  | push (url : Str)
  | clearAll

/-- One mutation step of the recent-suggestions memory. -/
def applyRecentOp (l : List Str) : RecentOp → List Str
  | .push u => pushRecent l u
  | .clearAll => []

/-- The recent-suggestions memory after a sequence of mutations, starting
from the empty list the process begins with (views.py line 16). -/
def runRecentOps (ops : List RecentOp) : List Str :=
  ops.foldl applyRecentOp []

/-- The shapes of the noise regular expressions of `clean_scraped_text`
(views.py lines 27-43): a literal phrase, two literal phrases separated by
`.*`, or the bare-price pattern `Rs \d+\.\d+`.  All are applied with
`re.IGNORECASE`. -/
inductive NoisePat where
  | plain (lit : Str)
  | around (pre post : Str)
  | rsPrice

/-- Match a literal pattern case-insensitively at the start of the text,
returning the remainder on success. -/
def stripLitCI : Str → Str → Option Str
  | [], s => some s
  | _ :: _, [] => none
  | c :: cs, x :: s => if lowerChar x = lowerChar c then stripLitCI cs s else none

/-- Greedy backtracking for `.*B`: try to match the literal `B` after
dropping `k` characters, then `k-1`, ..., then `0` (the regex engine tries
the longest `.*` consumption first). -/
def tryBackFrom (post : Str) (s : Str) : Nat → Option Str
  | 0 => stripLitCI post s
  | k + 1 =>
    match stripLitCI post (s.drop (k + 1)) with
    | some r => some r
    | none => tryBackFrom post s k

/-- Digits of the string read as a natural number. -/
def digitsToNat (ds : Str) : Nat :=
  ds.foldl (fun n c => 10 * n + (c.toNat - 48)) 0

/-- Match the noise pattern `Rs \d+\.\d+` (case-insensitively) at the start
of the text: maximal digit runs are correct here because each `\d+` is
followed by a non-digit pattern element or the pattern end. -/
def matchRsNoise (s : Str) : Option Str :=
  match stripLitCI "Rs ".toList s with
  | none => none
  | some s1 =>
    let d1 := s1.takeWhile Char.isDigit
    if d1 = [] then none
    else
      match s1.drop d1.length with
      | '.' :: s2 =>
        let d2 := s2.takeWhile Char.isDigit
        if d2 = [] then none else some (s2.drop d2.length)
      | _ => none

/-- Try one noise pattern at the start of the text, returning the remainder
after the (greedy, leftmost) match. -/
def matchNoiseAt (p : NoisePat) (s : Str) : Option Str :=
  match p with
  | .plain lit => stripLitCI lit s
  | .around pre post =>
    match stripLitCI pre s with
    | none => none
    | some s1 => tryBackFrom post s1 (s1.takeWhile (fun c => c ≠ '\n')).length
  | .rsPrice => matchRsNoise s

/-- Python `re.sub(pattern, '', text)`: delete every leftmost
non-overlapping match, scanning left to right.  Every noise pattern
consumes at least one character on a match, so fuel equal to the text
length suffices exactly. -/
def subPattern (p : NoisePat) : Nat → Str → Str
  | _, [] => []
  | 0, s => s
  | fuel + 1, c :: s =>
    match matchNoiseAt p (c :: s) with
    | some rem => subPattern p fuel rem
    | none => c :: subPattern p fuel s

/-- views.py lines 27-43: the ordered `noise_patterns` table. -/
def noise_patterns : List NoisePat :=
  [.plain "skip to content".toList,
   .plain "your cart is empty".toList,
   .plain "continue shopping".toList,
   .plain "have an account?".toList,
   .plain "log in to check out".toList,
   .plain "estimated total".toList,
   .around "taxes".toList "calculated at checkout".toList,
   .plain "check out".toList,
   .plain "loading...".toList,
   .plain "add to cart".toList,
   .plain "view cart".toList,
   .around "home".toList "clearance sale".toList,
   .around "co-ord sets".toList "elegant floral".toList,
   .around "cart".toList "loading".toList,
   .rsPrice]

/-- views.py lines 45-47: apply each noise pattern substitution in order. -/
def applyNoise (text : Str) : Str :=
  noise_patterns.foldl (fun acc p => subPattern p acc.length acc) text

/-- Worker for `re.sub(r'\s+', ' ', text)`: the flag records whether we are
inside a whitespace run that has already emitted its single space. -/
def collapseWSAux : Bool → Str → Str
  | _, [] => []
  | inRun, c :: s =>
    if pyIsSpace c then
      if inRun then collapseWSAux true s else ' ' :: collapseWSAux true s
    else c :: collapseWSAux false s

/-- views.py line 50: `re.sub(r'\s+', ' ', cleaned)`. -/
def collapseWS (s : Str) : Str := collapseWSAux false s

/-- Worker for `re.sub(r'\n+', '\n', text)`. -/
def collapseNLAux : Bool → Str → Str
  | _, [] => []
  | inRun, c :: s =>
    if c = '\n' then
      if inRun then collapseNLAux true s else '\n' :: collapseNLAux true s
    else c :: collapseNLAux false s

/-- views.py line 51: `re.sub(r'\n+', '\n', cleaned)`. -/
def collapseNL (s : Str) : Str := collapseNLAux false s

/-- views.py line 57: `re.match(r'^[^\w\s]+$', line)` — the line is
non-empty and consists solely of characters that are neither word
characters nor whitespace. -/
def pyAllSpecial (line : Str) : Bool :=
  !line.isEmpty && line.all (fun c => !pyIsWord c && !pyIsSpace c)

/-- views.py `clean_scraped_text` (lines 19-60): noise-pattern removal,
whitespace collapse, newline collapse, then per-line strip/filter and a
single-space join. -/
def clean_scraped_text (text : Str) : Str :=
  if text = [] then []
  else
    let cleaned := applyNoise text
    let cleaned := collapseNL (collapseWS cleaned)
    let lines := (splitOnChar '\n' cleaned).filterMap
      (fun line => let l := pyStrip line; if l = [] then none else some l)
    let meaningful_lines := lines.filter
      (fun line => decide (10 < line.length) && !pyAllSpecial line)
    pyStrip (joinWith " ".toList meaningful_lines)

/-- views.py line 79: the navigation terms excluded from product
sentences. -/
def nav_terms : List Str :=
  ["home".toList, "cart".toList, "checkout".toList, "log in".toList,
   "sign up".toList]

/-- views.py `extract_product_info` (lines 63-88): clean the text, split on
periods, keep stripped sentences of 5-100 words containing no navigation
term, join the first three with `'. '` and a final period; otherwise fall
back to the first 300 characters of the cleaned text.  The `title`
parameter is unused, as in the source. -/
def extract_product_info (text : Str) (_title : Option Str) : Str :=
  let cleaned := clean_scraped_text text
  let sentences := splitOnChar '.' cleaned
  let product_sentences := sentences.filterMap (fun sent0 =>
    let sent := pyStrip sent0
    let word_count := (splitWS sent).length
    if 5 ≤ word_count ∧ word_count ≤ 100 then
      if nav_terms.any (fun nav => isSubstrOf nav (toLowerStr sent)) then none
      else some sent
    else none)
  let result := joinWith ". ".toList (product_sentences.take 3)
  if product_sentences ≠ [] then
    (if result ≠ [] then result ++ ['.'] else cleaned.take 300)
  else cleaned.take 300

/-- models.py `PageContent`: one scraped page record.  `page` and
`last_scraped` play no role in the matching logic and are omitted;
`title` is `Option Str` because the column is nullable. -/
structure Page where
  url : Str
  title : Option Str
  content : Str
  page_type : Str
  is_active : Bool
deriving DecidableEq

/-- Python `title or default` for a nullable string: `None` and the empty
string both fall back to the default. -/
def pyOrStr (t : Option Str) (d : Str) : Str :=
  match t with
  | none => d
  | some s => if s = [] then d else s

/-- views.py line 130: the price-query routing keywords. -/
def price_keywords : List Str :=
  ["sasta".toList, "cheap".toList, "mehnga".toList, "expensive".toList,
   "price".toList, "budget".toList]

/-- views.py line 138: the color vocabulary. -/
def colorsList : List Str :=
  ["red".toList, "blue".toList, "green".toList, "black".toList,
   "white".toList, "pink".toList, "yellow".toList, "purple".toList]

/-- views.py line 139: the category vocabulary. -/
def categoriesList : List Str :=
  ["dress".toList, "saree".toList, "suit".toList, "kurta".toList,
   "shirt".toList, "pant".toList, "dupatta".toList]

/-- views.py line 135: query words longer than two characters. -/
def queryWordsOf (uql : Str) : List Str :=
  (splitWS uql).filter (fun w => 2 < w.length)

/-- views.py line 141: colors mentioned in the query. -/
def queryColorsOf (uql : Str) : List Str :=
  colorsList.filter (fun c => isSubstrOf c uql)

/-- views.py line 142: categories mentioned in the query. -/
def queryCategoriesOf (uql : Str) : List Str :=
  categoriesList.filter (fun c => isSubstrOf c uql)

/-- One loop iteration of `search_in_scraped_content` (views.py lines
146-184): the tiered score of a page together with the excerpt it sets
(the empty excerpt models Python's falsy `""`). -/
def scorePage (uql : Str) (query_words query_colors query_categories : List Str)
    (page : Page) : ℚ × Str :=
  let clean_content := extract_product_info page.content page.title
  let clean_content_lower := toLowerStr clean_content
  let title_lower := toLowerStr (pyOrStr page.title [])
  if isSubstrOf uql clean_content_lower then (mkRat 9 10, clean_content)
  else if isSubstrOf uql title_lower then (mkRat 85 100, clean_content)
  else if query_colors ≠ [] ∧ query_categories ≠ [] then
    let color_match := query_colors.any (fun c => isSubstrOf c clean_content_lower)
    let category_match := query_categories.any (fun c => isSubstrOf c clean_content_lower)
    if color_match && category_match then (mkRat 8 10, clean_content)
    else if color_match || category_match then (mkRat 6 10, clean_content)
    else (0, [])
  else if query_words ≠ [] then
    let matchCount := (query_words.filter (fun w => isSubstrOf w clean_content_lower)).length
    let score := mkRat matchCount query_words.length
    if mkRat 4 10 < score then (score, clean_content) else (score, [])
  else (0, [])

/-- One entry of the `all_matches` list (views.py lines 190-195). -/
structure MatchEntry where
  page : Page
  score : ℚ
  excerpt : Str
  title : Str
deriving DecidableEq

/-- views.py lines 186-195: a page becomes a candidate when its score
reaches the threshold, its excerpt is non-empty (Python truthiness), and
its url is not among the recently suggested ones. -/
def mkCandidate (uql : Str) (query_words query_colors query_categories : List Str)
    (threshold : ℚ) (last_suggested : List Str) (page : Page) : Option MatchEntry :=
  let se := scorePage uql query_words query_colors query_categories page
  if threshold ≤ se.1 ∧ se.2 ≠ [] ∧ page.url ∉ last_suggested then
    some ⟨page, se.1, se.2, pyOrStr page.title "Product".toList⟩
  else none

/-- views.py lines 144-195: the `all_matches` list accumulated by the page
loop. -/
def allMatchesFor (user_query : Str) (threshold : ℚ) (pages : List Page)
    (last_suggested : List Str) : List MatchEntry :=
  let uql := toLowerStr user_query
  pages.filterMap (mkCandidate uql (queryWordsOf uql) (queryColorsOf uql)
    (queryCategoriesOf uql) threshold last_suggested)

/-- The comparison of `all_matches.sort(key=lambda x: x['score'],
reverse=True)`: descending by score.  `List.insertionSort` is stable, as is
Python's sort, so the two agree on ties. -/
def matchDesc (a b : MatchEntry) : Prop := b.score ≤ a.score

instance : DecidableRel matchDesc := fun a b =>
  inferInstanceAs (Decidable (b.score ≤ a.score))

instance : IsTotal MatchEntry matchDesc := ⟨fun a b => le_total b.score a.score⟩

instance : IsTrans MatchEntry matchDesc :=
  ⟨fun _ _ _ h1 h2 => le_trans h2 h1⟩

/-- Consume `(?:,\d{3})*` greedily, appending the digits of each group to
the accumulated integer part. -/
def priceCommaGroups : Nat → Str × Str → Str × Str
  | 0, acc => acc
  | fuel + 1, (ds, s) =>
    match s with
    | ',' :: a :: b :: c :: rest =>
      if a.isDigit && b.isDigit && c.isDigit then
        priceCommaGroups fuel (ds ++ [a, b, c], rest)
      else (ds, s)
    | _ => (ds, s)

/-- Attempt the price regular expression
`Rs\.?(\d+(?:,\d{3})*(?:\.\d{2})?)` (views.py line 470, case-sensitive) at
the start of the text, returning the numeric value of the captured group
with its commas removed, as `float(...)` computes it.  Greedy matching
needs no backtracking here: every quantified element is followed by pattern
elements it can never satisfy. -/
def matchPriceAt (s : Str) : Option ℚ :=
  match s with
  | 'R' :: 's' :: s1 =>
    let s2 := match s1 with
      | '.' :: r => r
      | _ => s1
    let d1 := s2.takeWhile Char.isDigit
    if d1 = [] then none
    else
      let rest := s2.drop d1.length
      let grouped := priceCommaGroups rest.length (d1, rest)
      match grouped.2 with
      | '.' :: a :: b :: _ =>
        if a.isDigit && b.isDigit then
          some (mkRat (100 * digitsToNat grouped.1 + 10 * (a.toNat - 48) + (b.toNat - 48)) 100)
        else some (mkRat (digitsToNat grouped.1) 1)
      | _ => some (mkRat (digitsToNat grouped.1) 1)
  | _ => none

/-- views.py line 470: `re.search` scans left to right for the first
position where the price pattern matches. -/
def findPrice : Str → Option ℚ
  | [] => none
  | c :: s =>
    match matchPriceAt (c :: s) with
    | some q => some q
    | none => findPrice s

/-- One entry of `products_with_price` (views.py lines 475-479): the raw
title (`None` prints as `None` in the response, as in Python), the parsed
price, and the 300-character content prefix. -/
structure PriceEntry where
  title : Option Str
  price : ℚ
  content : Str
deriving DecidableEq

/-- views.py lines 463-481: product-typed pages whose content yields a
price under the price regular expression.  The `is_active` flag is not
consulted, mirroring `PageContent.objects.filter(page_type='product')`. -/
def products_with_price (pages : List Page) : List PriceEntry :=
  (pages.filter (fun p => p.page_type = "product".toList)).filterMap
    (fun product => (findPrice product.content).map
      (fun price => ⟨product.title, price, product.content.take 300⟩))

/-- views.py line 487: the cheap-intent keyword check of
`handle_price_query`. -/
def cheapIntent (query_lower : Str) : Bool :=
  ["sasta".toList, "cheap".toList, "budget".toList, "affordable".toList].any
    (fun w => isSubstrOf w query_lower)

/-- Ascending order by price (Python `sort(key=lambda x: x['price'])`). -/
def priceAsc (a b : PriceEntry) : Prop := a.price ≤ b.price

instance : DecidableRel priceAsc := fun a b =>
  inferInstanceAs (Decidable (a.price ≤ b.price))

instance : IsTotal PriceEntry priceAsc := ⟨fun a b => le_total a.price b.price⟩

instance : IsTrans PriceEntry priceAsc := ⟨fun _ _ _ h1 h2 => le_trans h1 h2⟩

/-- Descending order by price (Python `sort(..., reverse=True)`).  Both
Python's sort and `List.insertionSort` are stable, so they agree on
ties. -/
def priceDesc (a b : PriceEntry) : Prop := b.price ≤ a.price

instance : DecidableRel priceDesc := fun a b =>
  inferInstanceAs (Decidable (b.price ≤ a.price))

instance : IsTotal PriceEntry priceDesc := ⟨fun a b => le_total b.price a.price⟩

instance : IsTrans PriceEntry priceDesc := ⟨fun _ _ _ h1 h2 => le_trans h2 h1⟩

/-- views.py lines 487-499: the top three products, cheapest first for a
cheap-intent query and dearest first otherwise. -/
def selected_products (query_lower : Str) (pages : List Page) : List PriceEntry :=
  let pw := products_with_price pages
  if cheapIntent query_lower then (pw.insertionSort priceAsc).take 3
  else (pw.insertionSort priceDesc).take 3

/-- Python `str(title)` for the nullable title in an f-string. -/
def strOfTitle (t : Option Str) : Str :=
  match t with
  | none => "None".toList
  | some s => s

/-- views.py lines 507-508: the numbered product lines
`f"{i}. {title} - Rs.{int(price)}\n"`, `enumerate` starting at 1. -/
def priceLines : Nat → List PriceEntry → Str
  | _, [] => []
  | i, p :: ps =>
    (toString i).toList ++ ". ".toList ++ strOfTitle p.title ++
      " - Rs.".toList ++ (toString p.price.floor).toList ++ "\n".toList ++
      priceLines (i + 1) ps

/-- The `(excerpt, score, title)` triple returned by
`search_in_scraped_content` and `handle_price_query`; `none` models
Python's `None`. -/
structure SearchOutcome where
  excerpt : Option Str
  score : ℚ
  title : Option Str
deriving DecidableEq

/-- views.py `handle_price_query` (lines 457-515): collect priced products,
return `(None, 0, None)` when there are none, otherwise a numbered list of
the top three by price with fixed confidence 0.95. -/
def handle_price_query (query_lower : Str) (pages : List Page) : SearchOutcome :=
  let language := detect_language query_lower
  let pw := products_with_price pages
  if pw = [] then ⟨none, 0, none⟩
  else
    let sel := selected_products query_lower pages
    let header : Str :=
      if cheapIntent query_lower then
        (if language = "urdu" then "🌟 Sabse saste options:\n\n".toList
         else "🌟 Most affordable options:\n\n".toList)
      else "🌟 Premium options:\n\n".toList
    let closing : Str :=
      if language = "urdu" then "\nKaunsa dekhna chahein? 😊".toList
      else "\nWhich one would you like to see? 😊".toList
    ⟨some (header ++ priceLines 1 sel ++ closing), mkRat 95 100,
     some "Price Comparison".toList⟩

/-- views.py `search_in_scraped_content` (lines 120-214).  The database
queryset is the `pages` list, the global `LAST_SUGGESTED_PRODUCTS` is
threaded as `last_suggested`, and `random.choice(top_matches)` is modelled
by the index `choice` (taken modulo the length, every index below the
length being a possible draw of the uniform choice). -/
def search_in_scraped_content (user_query : Str) (threshold : ℚ)
    (pages : List Page) (last_suggested : List Str) (choice : Nat) :
    SearchOutcome × List Str :=
  let uql := toLowerStr user_query
  if price_keywords.any (fun w => isSubstrOf w uql) then
    (handle_price_query uql pages, last_suggested)
  else
    match (allMatchesFor user_query threshold pages last_suggested).insertionSort matchDesc with
    | [] => (⟨none, 0, none⟩, last_suggested)
    | best :: rest =>
      let selected :=
        if mkRat 7 10 < best.score then best
        else
          let top_matches := (best :: rest).take 3
          top_matches.getD (choice % top_matches.length) best
      (⟨some selected.excerpt, selected.score, some selected.title⟩,
       pushRecent last_suggested selected.page.url)

/-- The HTTP reply of the webhook: a status code and the body text (the
`fulfillmentText` field for the JSON replies). -/
structure WebhookResponse where
  status : Nat
  fulfillmentText : Str
deriving DecidableEq

/-- views.py line 602: `not answer or len(answer.strip()) < 5`, the
condition under which the computed answer is replaced. -/
def needsReplace (answer : Option Str) : Bool :=
  match answer with
  | none => true
  | some a => a.isEmpty || decide ((pyStrip a).length < 5)

/-- views.py lines 603-607: the fixed clarification prompt, localized. -/
def clarificationFor (language : String) : Str :=
  if language = "urdu" then
    "Maaf kijiye! Kya aap apna sawal thoda detail mein puch sakte hain?".toList
  else "Sorry! Could you please provide more details?".toList

/-- views.py lines 601-607: the final safety check applied to the computed
answer before the JSON response is built. -/
def finalAnswer (answer : Option Str) (user_query : Str) : Str :=
  if needsReplace answer then clarificationFor (detect_language user_query)
  else answer.getD []

/-- views.py `dialogflow_webhook` (lines 571-617).  `parsed` is the outcome
of the guarded `json.loads` (lines 577-581) together with the defaulted
`queryText`/`displayName` extraction; `route` is the intent dispatch of
lines 594-599 (`handle_llm_query_intent` / `handle_fallback_intent`), an
`Except` because those handlers can raise — and the source wraps no
`try` around them, so a raised exception propagates out of the view
(`Except.map` re-raises it). -/
def dialogflow_webhook (method : String) (parsed : Except Str (Str × Str))
    (route : Str → Str → Except Str (Option Str)) : Except Str WebhookResponse :=
  if method = "POST" then
    match parsed with
    | .error _ => .ok ⟨400, "⚠️ Invalid request.".toList⟩
    | .ok (user_query, intent) =>
      (route user_query intent).map (fun answer => ⟨200, finalAnswer answer user_query⟩)
  else .ok ⟨405, "Only POST allowed".toList⟩

/-- Rewriting `is_active` only, leaving every other field of a page
unchanged (used to state that the matcher never consults the flag). -/
def setActive (f : Page → Bool) (p : Page) : Page :=
  { p with is_active := f p }

/-- The corresponding rewrite on a candidate entry. -/
def setActiveEntry (f : Page → Bool) (e : MatchEntry) : MatchEntry :=
  { e with page := setActive f e.page }

/-- A deactivated product page whose cleaned content matches exactly
(counterexample data for the active-pages claim). -/
def inactiveSaree : Page :=
  ⟨"u-saree".toList, some "Golden Saree".toList,
   "Beautiful silk saree with golden border and soft fabric".toList,
   "product".toList, false⟩

/-- A deactivated product page carrying a price (counterexample data). -/
def inactivePriced : Page :=
  ⟨"u-priced".toList, some "Scarf".toList,
   "Silky scarf special offer. Price: Rs.500 for you".toList,
   "product".toList, false⟩

/-- Product pages priced 500, 1200 and 300 (price-path example data). -/
def pageP500 : Page :=
  ⟨"p500".toList, some "Mid".toList,
   "Lovely item A. Price: Rs.500 today".toList, "product".toList, true⟩

def pageP1200 : Page :=
  ⟨"p1200".toList, some "High".toList,
   "Lovely item B. Price: Rs.1200 today".toList, "product".toList, true⟩

def pageP300 : Page :=
  ⟨"p300".toList, some "Low".toList,
   "Lovely item C. Price: Rs.300 today".toList, "product".toList, true⟩

def pricedPages : List Page := [pageP500, pageP1200, pageP300]

/-- An active page with an exact-phrase match (witness data). -/
def sareePage : Page :=
  ⟨"w1".toList, some "Golden Saree".toList,
   "Beautiful silk saree with golden border and soft fabric".toList,
   "product".toList, true⟩

/-- An active page that matches nothing about a golden border. -/
def plainPage : Page :=
  ⟨"w2".toList, some "Plain Kurta".toList,
   "Comfortable cotton kurta in plain style for daily wear".toList,
   "product".toList, true⟩

/-- Two pages that each match half the words of the query
`"floral work"` — a moderate-confidence tie (witness data). -/
def floralPage : Page :=
  ⟨"f1".toList, some "Red Dress".toList,
   "A lovely red dress with floral print for parties".toList,
   "product".toList, true⟩

def zariPage : Page :=
  ⟨"f2".toList, some "Blue Saree".toList,
   "An elegant blue saree with silk fabric and zari work".toList,
   "product".toList, true⟩

/-- The candidate entries the matcher builds for the two moderate-score
pages (witness data). -/
def entryFloral : MatchEntry :=
  ⟨floralPage, mkRat 1 2,
   extract_product_info floralPage.content floralPage.title,
   "Red Dress".toList⟩

def entryZari : MatchEntry :=
  ⟨zariPage, mkRat 1 2,
   extract_product_info zariPage.content zariPage.title,
   "Blue Saree".toList⟩

/-- A page whose content is empty, so its cleaned excerpt is the empty
string (counterexample data). -/
def emptyPage : Page := ⟨"u".toList, none, [], "page".toList, true⟩

/-- Ten urls filling the recent-suggestions memory (witness data). -/
def tenUrls : List Str :=
  ["u0".toList, "u1".toList, "u2".toList, "u3".toList, "u4".toList,
   "u5".toList, "u6".toList, "u7".toList, "u8".toList, "u9".toList]

/-- Auxiliary: one bounded push keeps the recent-suggestions memory within
ten entries. -/
theorem pushRecent_length_le (l : List Str) (u : Str) (h : l.length ≤ 10) :
    (pushRecent l u).length ≤ 10 := by
  show (if 10 < (l ++ [u]).length then (l ++ [u]).drop 1 else (l ++ [u])).length ≤ 10
  by_cases h10 : 10 < (l ++ [u]).length
  · rw [if_pos h10]
    simp only [List.length_drop, List.length_append, List.length_singleton]
    omega
  · rw [if_neg h10]
    simp only [List.length_append, List.length_singleton] at h10 ⊢
    omega

/-- C4: the recent-suggestions memory never holds more than 10 entries
after any operation, and when an 11th url is pushed the first-inserted
entry is the one evicted (FIFO). -/
theorem recent_suggestions_bounded_fifo (l : List Str) (u : Str)
    (h : l.length ≤ 10) :
    ((pushRecent l u).length ≤ 10 ∧
      (l.length = 10 → pushRecent l u = l.drop 1 ++ [u])) ∧
    ∀ ops : List RecentOp, (runRecentOps ops).length ≤ 10 := by
  refine ⟨⟨pushRecent_length_le l u h, fun h10 => ?_⟩, fun ops => ?_⟩
  · unfold pushRecent
    have hlen : 10 < (l ++ [u]).length := by
      simp [List.length_append, h10]
    rw [if_pos hlen, List.drop_append_of_le_length (by omega)]
  · suffices hgen : ∀ (ops : List RecentOp) (l0 : List Str), l0.length ≤ 10 →
        (ops.foldl applyRecentOp l0).length ≤ 10 by
      exact hgen ops [] (by simp)
    intro ops
    induction ops with
    | nil => intro l0 h0; simpa using h0
    | cons op ops ih =>
      intro l0 h0
      cases op with
      | push u0 => exact ih _ (pushRecent_length_le l0 u0 h0)
      | clearAll => exact ih _ (by simp [applyRecentOp])

/-- Witness for C4 at a full ten-entry memory. -/
theorem recent_suggestions_bounded_fifo_witness :
    ((pushRecent tenUrls "new".toList).length ≤ 10 ∧
      (tenUrls.length = 10 →
        pushRecent tenUrls "new".toList = tenUrls.drop 1 ++ ["new".toList])) ∧
    ∀ ops : List RecentOp, (runRecentOps ops).length ≤ 10 :=
  recent_suggestions_bounded_fifo tenUrls "new".toList (by decide)

/-- C10: a query containing a price keyword is routed to the price path
before the page loop, the recent-suggestions memory is returned unchanged,
and the outcome does not depend on the memory or on the random draw. -/
theorem price_query_frame (q : Str) (threshold : ℚ) (pages : List Page)
    (excl excl' : List Str) (choice choice' : Nat)
    (h : price_keywords.any (fun w => isSubstrOf w (toLowerStr q)) = true) :
    search_in_scraped_content q threshold pages excl choice
      = (handle_price_query (toLowerStr q) pages, excl) ∧
    (search_in_scraped_content q threshold pages excl choice).1
      = (search_in_scraped_content q threshold pages excl' choice').1 := by
  unfold search_in_scraped_content
  simp [h]

/-- Witness for C10: a concrete price query with a non-empty memory. -/
theorem price_query_frame_witness :
    search_in_scraped_content "what is the price".toList (mkRat 3 10) []
        ["old".toList] 4
      = (handle_price_query (toLowerStr "what is the price".toList) [],
         ["old".toList]) ∧
    (search_in_scraped_content "what is the price".toList (mkRat 3 10) []
        ["old".toList] 4).1
      = (search_in_scraped_content "what is the price".toList (mkRat 3 10) []
        [] 0).1 :=
  price_query_frame _ _ _ _ _ _ _ (by decide)

/-- Counterexample for C8: an exception raised by the intent handlers (the
matching/formatting logic) propagates out of the webhook — the caller gets
no fallback reply, because the only `try`/`except` in
`dialogflow_webhook` wraps `json.loads` alone (views.py lines 577-581). -/
theorem webhook_exception_escapes :
    dialogflow_webhook "POST"
        (.ok ("red dress".toList, "LLMQueryIntent".toList))
        (fun _ _ => .error "database unavailable".toList)
      = .error "database unavailable".toList := rfl

/-- C8 (amended): the webhook boundary catches exactly the body-parsing
failures, answering them with the fixed 400 invalid-request reply; an
exception raised inside the intent handlers is re-raised unchanged. -/
theorem webhook_catches_only_parse_errors (e err : Str) (q intent : Str)
    (route : Str → Str → Except Str (Option Str))
    (hroute : route q intent = .error err) :
    dialogflow_webhook "POST" (.error e) route
      = .ok ⟨400, "⚠️ Invalid request.".toList⟩ ∧
    dialogflow_webhook "POST" (.ok (q, intent)) route = .error err := by
  constructor
  · rfl
  · simp [dialogflow_webhook, hroute, Except.map]

/-- Witness for C8's amended statement. -/
theorem webhook_catches_only_parse_errors_witness :
    dialogflow_webhook "POST" (.error "bad json".toList)
        (fun _ _ => .error "boom".toList)
      = .ok ⟨400, "⚠️ Invalid request.".toList⟩ ∧
    dialogflow_webhook "POST" (.ok ("hello".toList, "".toList))
        (fun _ _ => .error "boom".toList)
      = .error "boom".toList :=
  webhook_catches_only_parse_errors "bad json".toList "boom".toList
    "hello".toList "".toList (fun _ _ => .error "boom".toList) rfl

/-- Auxiliary: the clarification prompt is a fixed non-empty text of
stripped length at least 5 in either language. -/
theorem clarificationFor_long (language : String) :
    clarificationFor language ≠ [] ∧
      5 ≤ (pyStrip (clarificationFor language)).length := by
  unfold clarificationFor
  by_cases h : language = "urdu"
  · rw [if_pos h]; exact ⟨by decide, by decide⟩
  · rw [if_neg h]; exact ⟨by decide, by decide⟩

/-- C9: a POST with well-formed JSON whose handler returns normally always
yields a 200 reply whose fulfillment text is non-empty and at least five
characters after stripping; when the computed answer is missing, empty or
shorter than five stripped characters it is replaced by the fixed
clarification prompt in the detected language (views.py lines 601-607). -/
theorem webhook_reply_never_too_short (q intent : Str) (ans : Option Str)
    (route : Str → Str → Except Str (Option Str))
    (hroute : route q intent = .ok ans) :
    dialogflow_webhook "POST" (.ok (q, intent)) route
      = .ok ⟨200, finalAnswer ans q⟩ ∧
    finalAnswer ans q ≠ [] ∧
    5 ≤ (pyStrip (finalAnswer ans q)).length ∧
    (needsReplace ans = true →
      finalAnswer ans q = clarificationFor (detect_language q)) := by
  refine ⟨by simp [dialogflow_webhook, hroute, Except.map], ?_, ?_, ?_⟩
  · unfold finalAnswer
    by_cases h : needsReplace ans = true
    · rw [if_pos h]; exact (clarificationFor_long _).1
    · rw [if_neg h]
      cases ans with
      | none => simp [needsReplace] at h
      | some a =>
        intro hnil
        apply h
        simp only [Option.getD_some] at hnil
        simp [needsReplace, hnil]
  · unfold finalAnswer
    by_cases h : needsReplace ans = true
    · rw [if_pos h]; exact (clarificationFor_long _).2
    · rw [if_neg h]
      cases ans with
      | none => simp [needsReplace] at h
      | some a =>
        simp only [needsReplace, Bool.or_eq_true, decide_eq_true_eq,
          List.isEmpty_iff] at h
        push_neg at h
        simpa using h.2
  · intro h
    unfold finalAnswer
    rw [if_pos h]

/-- Witness for C9 with a too-short computed answer. -/
theorem webhook_reply_never_too_short_witness :
    dialogflow_webhook "POST" (.ok ("hi".toList, "LLMQueryIntent".toList))
        (fun _ _ => .ok (some "ok".toList))
      = .ok ⟨200, finalAnswer (some "ok".toList) "hi".toList⟩ ∧
    finalAnswer (some "ok".toList) "hi".toList ≠ [] ∧
    5 ≤ (pyStrip (finalAnswer (some "ok".toList) "hi".toList)).length ∧
    (needsReplace (some "ok".toList) = true →
      finalAnswer (some "ok".toList) "hi".toList
        = clarificationFor (detect_language "hi".toList)) :=
  webhook_reply_never_too_short "hi".toList "LLMQueryIntent".toList
    (some "ok".toList) (fun _ _ => .ok (some "ok".toList)) rfl

/-- The tiered score reads only content and title, never `is_active`. -/
theorem scorePage_setActive (uql : Str) (qw qc qcat : List Str)
    (f : Page → Bool) (p : Page) :
    scorePage uql qw qc qcat (setActive f p) = scorePage uql qw qc qcat p := rfl

/-- Candidate construction commutes with an `is_active` rewrite. -/
theorem mkCandidate_setActive (uql : Str) (qw qc qcat : List Str) (t : ℚ)
    (ls : List Str) (f : Page → Bool) (p : Page) :
    mkCandidate uql qw qc qcat t ls (setActive f p)
      = (mkCandidate uql qw qc qcat t ls p).map (setActiveEntry f) := by
  simp only [mkCandidate, scorePage_setActive]
  rw [show (setActive f p).url = p.url from rfl]
  rw [show (setActive f p).title = p.title from rfl]
  by_cases h : t ≤ (scorePage uql qw qc qcat p).1 ∧
      (scorePage uql qw qc qcat p).2 ≠ [] ∧ p.url ∉ ls
  · rw [if_pos h, if_pos h]
    simp [setActiveEntry]
  · rw [if_neg h, if_neg h]
    rfl

/-- The candidate list over pages with rewritten `is_active` flags is the
entry-wise rewrite of the original candidate list. -/
theorem allMatchesFor_setActive (q : Str) (t : ℚ) (pages : List Page)
    (excl : List Str) (f : Page → Bool) :
    allMatchesFor q t (pages.map (setActive f)) excl
      = (allMatchesFor q t pages excl).map (setActiveEntry f) := by
  unfold allMatchesFor
  rw [List.filterMap_map]
  induction pages with
  | nil => rfl
  | cons p ps ih =>
    simp only [List.filterMap_cons, Function.comp_apply, mkCandidate_setActive]
    cases hm : mkCandidate (toLowerStr q) (queryWordsOf (toLowerStr q))
        (queryColorsOf (toLowerStr q)) (queryCategoriesOf (toLowerStr q)) t excl p with
    | none => simpa using ih
    | some e => simpa using ih

/-- Ordered insertion commutes with the score-preserving entry rewrite. -/
theorem orderedInsert_setActiveEntry (f : Page → Bool) (a : MatchEntry)
    (l : List MatchEntry) :
    (l.map (setActiveEntry f)).orderedInsert matchDesc (setActiveEntry f a)
      = (l.orderedInsert matchDesc a).map (setActiveEntry f) := by
  induction l with
  | nil => rfl
  | cons b l ih =>
    simp only [List.map_cons, List.orderedInsert]
    by_cases h : matchDesc a b
    · have h' : matchDesc (setActiveEntry f a) (setActiveEntry f b) := h
      rw [if_pos h', if_pos h]
      simp
    · have h' : ¬ matchDesc (setActiveEntry f a) (setActiveEntry f b) := h
      rw [if_neg h', if_neg h]
      simp [ih]

/-- Sorting commutes with the score-preserving entry rewrite. -/
theorem insertionSort_setActiveEntry (f : Page → Bool) (l : List MatchEntry) :
    (l.map (setActiveEntry f)).insertionSort matchDesc
      = (l.insertionSort matchDesc).map (setActiveEntry f) := by
  induction l with
  | nil => rfl
  | cons a l ih =>
    simp only [List.map_cons, List.insertionSort, ih, orderedInsert_setActiveEntry]

/-- The priced-products list never reads `is_active`. -/
theorem products_with_price_setActive (pages : List Page) (f : Page → Bool) :
    products_with_price (pages.map (setActive f)) = products_with_price pages := by
  unfold products_with_price
  rw [List.filter_map]
  rw [show ((fun p : Page => decide (p.page_type = "product".toList)) ∘ setActive f)
      = (fun p : Page => decide (p.page_type = "product".toList)) from rfl]
  rw [List.filterMap_map]
  rfl

/-- The price path never reads `is_active`. -/
theorem handle_price_query_setActive (q : Str) (pages : List Page)
    (f : Page → Bool) :
    handle_price_query q (pages.map (setActive f)) = handle_price_query q pages := by
  unfold handle_price_query selected_products
  rw [products_with_price_setActive]

/-- Auxiliary: `getD` over a mapped list. -/
theorem getD_map_entry (f : Page → Bool) (l : List MatchEntry) (i : Nat)
    (d : MatchEntry) :
    (l.map (setActiveEntry f)).getD i (setActiveEntry f d)
      = setActiveEntry f (l.getD i d) := by
  simp only [List.getD_eq_getElem?_getD, List.getElem?_map]
  cases l[i]? <;> simp

/-- The whole matcher never reads `is_active`. -/
theorem search_setActive (q : Str) (t : ℚ) (pages : List Page)
    (excl : List Str) (ch : Nat) (f : Page → Bool) :
    search_in_scraped_content q t (pages.map (setActive f)) excl ch
      = search_in_scraped_content q t pages excl ch := by
  unfold search_in_scraped_content
  by_cases hp : price_keywords.any (fun w => isSubstrOf w (toLowerStr q)) = true
  · simp only [hp, if_true, handle_price_query_setActive]
  · rw [Bool.not_eq_true] at hp
    simp only [hp, Bool.false_eq_true, if_false]
    rw [allMatchesFor_setActive, insertionSort_setActiveEntry]
    cases hs : (allMatchesFor q t pages excl).insertionSort matchDesc with
    | nil => simp
    | cons best rest =>
      simp only [List.map_cons]
      by_cases hb : mkRat 7 10 < best.score
      · have hb' : mkRat 7 10 < (setActiveEntry f best).score := hb
        rw [if_pos hb', if_pos hb]
        rfl
      · have hb' : ¬ mkRat 7 10 < (setActiveEntry f best).score := hb
        rw [if_neg hb', if_neg hb]
        rw [← List.map_cons (setActiveEntry f) best rest]
        rw [← List.map_take]
        rw [List.length_map]
        rw [getD_map_entry]
        rfl

/-- C3 (amended): neither the general matcher nor the price path consults
the `isActive` flag — rewriting the flag arbitrarily on every page changes
no result.  The source reads `PageContent.objects.all()` (line 144) and
`filter(page_type='product')` (line 464), never filtering on
`is_active`. -/
theorem active_flag_never_consulted (q : Str) (t : ℚ) (pages : List Page)
    (excl : List Str) (ch : Nat) (f : Page → Bool) :
    search_in_scraped_content q t (pages.map (setActive f)) excl ch
      = search_in_scraped_content q t pages excl ch ∧
    handle_price_query q (pages.map (setActive f)) = handle_price_query q pages :=
  ⟨search_setActive q t pages excl ch f, handle_price_query_setActive q pages f⟩

set_option maxRecDepth 8000 in
/-- Counterexample for C3 as stated: a page with `is_active = false` is
returned by the matcher with score 0.9, and a deactivated priced product
is listed by the price path with confidence 0.95. -/
theorem inactive_page_matched :
    inactiveSaree.is_active = false ∧
    (search_in_scraped_content "golden border".toList (mkRat 3 10)
        [inactiveSaree] [] 0).1
      = ⟨some (extract_product_info inactiveSaree.content inactiveSaree.title),
         mkRat 9 10, some "Golden Saree".toList⟩ ∧
    inactivePriced.is_active = false ∧
    (handle_price_query "cheap".toList [inactivePriced]).score = mkRat 95 100 ∧
    (handle_price_query "cheap".toList [inactivePriced]).title
      = some "Price Comparison".toList := by
  refine ⟨rfl, by decide, rfl, by decide, by decide⟩

/-- C5 (amended): given at least one priced product, the price path returns
confidence exactly 0.95 and a non-empty reply; a cheap-intent query lists
the at most three lowest-priced products in ascending order, and a query
without cheap-intent keywords (in particular an expensive-intent query
that carries no cheap keyword) lists the at most three highest-priced
products in descending order.  Cheap-intent keywords take precedence when
both kinds occur, and with no priced products the sentinel `(None, 0,
None)` is returned instead. -/
theorem price_path_sorting (q : Str) (pages : List Page)
    (hne : products_with_price pages ≠ []) :
    (handle_price_query q pages).score = mkRat 95 100 ∧
    (handle_price_query q pages).excerpt ≠ none ∧
    (handle_price_query q pages).title = some "Price Comparison".toList ∧
    (selected_products q pages).length
      = min 3 (products_with_price pages).length ∧
    (cheapIntent q = true →
      selected_products q pages
        = ((products_with_price pages).insertionSort priceAsc).take 3 ∧
      List.Sorted priceAsc (selected_products q pages)) ∧
    (cheapIntent q = false →
      selected_products q pages
        = ((products_with_price pages).insertionSort priceDesc).take 3 ∧
      List.Sorted priceDesc (selected_products q pages)) := by
  refine ⟨?_, ?_, ?_, ?_, ?_, ?_⟩
  · simp only [handle_price_query]
    rw [if_neg hne]
  · simp only [handle_price_query]
    rw [if_neg hne]
    simp
  · simp only [handle_price_query]
    rw [if_neg hne]
  · by_cases hc : cheapIntent q = true
    · simp [selected_products, hc, List.length_take,
        (List.perm_insertionSort priceAsc (products_with_price pages)).length_eq]
    · rw [Bool.not_eq_true] at hc
      simp [selected_products, hc, List.length_take,
        (List.perm_insertionSort priceDesc (products_with_price pages)).length_eq]
  · intro hc
    refine ⟨by simp [selected_products, hc], ?_⟩
    have hsorted := List.sorted_insertionSort priceAsc (products_with_price pages)
    simp only [selected_products, hc, if_true]
    exact hsorted.sublist (List.take_sublist 3 _)
  · intro hc
    refine ⟨by simp [selected_products, hc], ?_⟩
    have hsorted := List.sorted_insertionSort priceDesc (products_with_price pages)
    simp only [selected_products, hc, Bool.false_eq_true, if_false]
    exact hsorted.sublist (List.take_sublist 3 _)

set_option maxRecDepth 8000 in
/-- Witness for C5: products priced 500, 1200 and 300 come out as
300, 500, 1200 for a cheap query and 1200, 500, 300 for an expensive
query. -/
theorem price_path_sorting_witness :
    products_with_price pricedPages ≠ [] ∧
    ((handle_price_query "cheap".toList pricedPages).score = mkRat 95 100 ∧
     (handle_price_query "cheap".toList pricedPages).excerpt ≠ none ∧
     (handle_price_query "cheap".toList pricedPages).title
       = some "Price Comparison".toList ∧
     (selected_products "cheap".toList pricedPages).length
       = min 3 (products_with_price pricedPages).length ∧
     (cheapIntent "cheap".toList = true →
       selected_products "cheap".toList pricedPages
         = ((products_with_price pricedPages).insertionSort priceAsc).take 3 ∧
       List.Sorted priceAsc (selected_products "cheap".toList pricedPages)) ∧
     (cheapIntent "cheap".toList = false →
       selected_products "cheap".toList pricedPages
         = ((products_with_price pricedPages).insertionSort priceDesc).take 3 ∧
       List.Sorted priceDesc (selected_products "cheap".toList pricedPages))) ∧
    (selected_products "cheap".toList pricedPages).map PriceEntry.price
      = [mkRat 300 1, mkRat 500 1, mkRat 1200 1] ∧
    (selected_products "mehnga".toList pricedPages).map PriceEntry.price
      = [mkRat 1200 1, mkRat 500 1, mkRat 300 1] :=
  ⟨by decide, price_path_sorting "cheap".toList pricedPages (by decide),
   by decide, by decide⟩

set_option maxRecDepth 8000 in
/-- Counterexample for C5 as stated: the query `"sasta expensive"` contains
the expensive-intent keyword `expensive`, yet the price path lists the
products in ascending order because the cheap check fires first; and a
cheap query over a store with no priced products returns confidence 0,
not 0.95. -/
theorem expensive_keyword_not_descending :
    isSubstrOf "expensive".toList (toLowerStr "sasta expensive".toList) = true ∧
    (selected_products "sasta expensive".toList pricedPages).map PriceEntry.price
      = [mkRat 300 1, mkRat 500 1, mkRat 1200 1] ∧
    (handle_price_query "sasta".toList ([] : List Page)).score = 0 := by
  refine ⟨by decide, by decide, by decide⟩

/-- The first element surviving `dropWhile p` falsifies `p`. -/
theorem head?_dropWhile_false {α : Type} (p : α → Bool) (l : List α) :
    ∀ c, (l.dropWhile p).head? = some c → p c = false := by
  induction l with
  | nil => intro c h; simp at h
  | cons x l ih =>
    intro c h
    rw [List.dropWhile_cons] at h
    by_cases hx : p x = true
    · exact ih c (by simpa [hx] using h)
    · rw [if_neg hx] at h
      simp only [List.head?_cons, Option.some.injEq] at h
      subst h
      simpa using hx

/-- `dropWhile p` is the identity when the head already falsifies `p`. -/
theorem dropWhile_of_head_false {α : Type} (p : α → Bool) (l : List α)
    (h : ∀ c, l.head? = some c → p c = false) : l.dropWhile p = l := by
  cases l with
  | nil => rfl
  | cons x l =>
    have hx := h x rfl
    rw [List.dropWhile_cons]
    simp [hx]

/-- A non-empty prefix shares its head with the longer list. -/
theorem head?_of_pre {α : Type} {l₁ l₂ : List α} {a : α}
    (h : l₁ <+: l₂) (ha : l₁.head? = some a) : l₂.head? = some a := by
  obtain ⟨r, rfl⟩ := h
  cases l₁ with
  | nil => simp at ha
  | cons x t => simpa using ha

/-- Stripping stays inside the original text. -/
theorem pyStrip_within (s : Str) : pyStrip s <:+: s := by
  unfold pyStrip
  have h1 : s.dropWhile pyIsSpace <:+ s := List.dropWhile_suffix _
  have h2 : (s.dropWhile pyIsSpace).reverse.dropWhile pyIsSpace
      <:+ (s.dropWhile pyIsSpace).reverse := List.dropWhile_suffix _
  have h3 := (@List.reverse_prefix Char
    ((s.dropWhile pyIsSpace).reverse.dropWhile pyIsSpace)
    ((s.dropWhile pyIsSpace).reverse)).2 h2
  rw [List.reverse_reverse] at h3
  exact h3.isInfix.trans h1.isInfix

/-- Stripping twice strips once. -/
theorem pyStrip_idem (s : Str) : pyStrip (pyStrip s) = pyStrip s := by
  have hu : ∀ c, ((s.dropWhile pyIsSpace).dropWhile pyIsSpace).head? = some c →
      pyIsSpace c = false := head?_dropWhile_false _ _
  have hv : ∀ c,
      (((s.dropWhile pyIsSpace).reverse.dropWhile pyIsSpace)).head? = some c →
      pyIsSpace c = false := head?_dropWhile_false _ _
  have hpre : ((s.dropWhile pyIsSpace).reverse.dropWhile pyIsSpace).reverse
      <+: s.dropWhile pyIsSpace := by
    have h2 : (s.dropWhile pyIsSpace).reverse.dropWhile pyIsSpace
        <:+ (s.dropWhile pyIsSpace).reverse := List.dropWhile_suffix _
    have h3 := (@List.reverse_prefix Char
      ((s.dropWhile pyIsSpace).reverse.dropWhile pyIsSpace)
      ((s.dropWhile pyIsSpace).reverse)).2 h2
    rwa [List.reverse_reverse] at h3
  show pyStrip (((s.dropWhile pyIsSpace).reverse.dropWhile pyIsSpace).reverse)
    = ((s.dropWhile pyIsSpace).reverse.dropWhile pyIsSpace).reverse
  unfold pyStrip
  have hstep1 : ((s.dropWhile pyIsSpace).reverse.dropWhile pyIsSpace).reverse.dropWhile
      pyIsSpace = ((s.dropWhile pyIsSpace).reverse.dropWhile pyIsSpace).reverse := by
    apply dropWhile_of_head_false
    intro c hc
    exact head?_dropWhile_false pyIsSpace s c (head?_of_pre hpre hc)
  rw [hstep1, List.reverse_reverse]
  rw [dropWhile_of_head_false pyIsSpace _
    (head?_dropWhile_false pyIsSpace (s.dropWhile pyIsSpace).reverse)]

/-- In run-state the whitespace collapse emits a non-space first. -/
theorem collapseWSAux_head (s : Str) :
    ∀ c, (collapseWSAux true s).head? = some c → pyIsSpace c = false := by
  induction s with
  | nil => intro c h; simp [collapseWSAux] at h
  | cons x s ih =>
    intro c h
    by_cases hx : pyIsSpace x = true
    · exact ih c (by simpa [collapseWSAux, hx] using h)
    · rw [Bool.not_eq_true] at hx
      rw [show collapseWSAux true (x :: s) = x :: collapseWSAux false s
          from by simp [collapseWSAux, hx]] at h
      simp only [List.head?_cons, Option.some.injEq] at h
      subst h
      exact hx

/-- No two adjacent characters of the whitespace collapse are both
whitespace. -/
theorem collapseWSAux_chain (s : Str) : ∀ b : Bool,
    List.Chain' (fun a c => ¬(pyIsSpace a = true ∧ pyIsSpace c = true))
      (collapseWSAux b s) := by
  induction s with
  | nil => intro b; simp [collapseWSAux]
  | cons x s ih =>
    intro b
    by_cases hx : pyIsSpace x = true
    · cases b with
      | true => simpa [collapseWSAux, hx] using ih true
      | false =>
        rw [show collapseWSAux false (x :: s) = ' ' :: collapseWSAux true s
            from by simp [collapseWSAux, hx]]
        rw [List.chain'_cons']
        refine ⟨fun y hy => ?_, ih true⟩
        intro hcon
        have hns := collapseWSAux_head s y hy
        rw [hns] at hcon
        exact absurd hcon.2 (by simp)
    · rw [Bool.not_eq_true] at hx
      rw [show collapseWSAux b (x :: s) = x :: collapseWSAux false s
          from by simp [collapseWSAux, hx]]
      rw [List.chain'_cons']
      refine ⟨fun y _ => ?_, ih false⟩
      intro hcon
      rw [hx] at hcon
      exact absurd hcon.1 (by simp)

/-- Every character the whitespace collapse emits is a space or a
non-whitespace character of the input. -/
theorem mem_collapseWSAux (s : Str) : ∀ (b : Bool) (c : Char),
    c ∈ collapseWSAux b s → c = ' ' ∨ pyIsSpace c = false := by
  induction s with
  | nil => intro b c h; simp [collapseWSAux] at h
  | cons x s ih =>
    intro b c h
    by_cases hx : pyIsSpace x = true
    · cases b with
      | true => exact ih true c (by simpa [collapseWSAux, hx] using h)
      | false =>
        rw [show collapseWSAux false (x :: s) = ' ' :: collapseWSAux true s
            from by simp [collapseWSAux, hx]] at h
        rcases List.mem_cons.mp h with h1 | h2
        · exact Or.inl h1
        · exact ih true c h2
    · rw [Bool.not_eq_true] at hx
      rw [show collapseWSAux b (x :: s) = x :: collapseWSAux false s
          from by simp [collapseWSAux, hx]] at h
      rcases List.mem_cons.mp h with h1 | h2
      · subst h1; exact Or.inr hx
      · exact ih false c h2

/-- No two adjacent characters of `collapseWS` output are both
whitespace. -/
theorem collapseWS_chain (s : Str) :
    List.Chain' (fun a c => ¬(pyIsSpace a = true ∧ pyIsSpace c = true))
      (collapseWS s) := collapseWSAux_chain s false

/-- The whitespace collapse leaves no newline. -/
theorem newline_not_mem_collapseWS (s : Str) : '\n' ∉ collapseWS s := by
  intro h
  rcases mem_collapseWSAux s false '\n' h with h1 | h2
  · exact absurd h1 (by decide)
  · exact absurd h2 (by decide)

/-- Newline collapse is the identity on newline-free text. -/
theorem collapseNLAux_of_no_newline (s : Str) (hs : '\n' ∉ s) :
    ∀ b, collapseNLAux b s = s := by
  induction s with
  | nil => intro b; rfl
  | cons x s ih =>
    intro b
    have hx : ¬ x = '\n' := fun h => hs (h ▸ List.mem_cons_self x s)
    have hs' : '\n' ∉ s := fun h => hs (List.mem_cons_of_mem _ h)
    simp [collapseNLAux, hx, ih hs' false]

/-- Splitting on an absent separator yields the whole text. -/
theorem splitOnChar_of_not_mem (sep : Char) (s : Str) (hs : sep ∉ s) :
    splitOnChar sep s = [s] := by
  induction s with
  | nil => rfl
  | cons x s ih =>
    have hx : ¬ x = sep := fun h => hs (h ▸ List.mem_cons_self x s)
    have hs' : sep ∉ s := fun h => hs (List.mem_cons_of_mem _ h)
    simp [splitOnChar, hx, ih hs']

set_option maxRecDepth 10000
set_option maxHeartbeats 2000000

/-- The tail of the cleaning pipeline (strip/filter/join) applied to a
single already-collapsed line `y`: the output keeps the no-double-space
property and equals the stripped line exactly when that line is long
enough and not all-special. -/
theorem clean_pipeline_char (y : Str)
    (hchain : List.Chain' (fun a b => ¬(pyIsSpace a = true ∧ pyIsSpace b = true)) y) :
    List.Chain' (fun a b => ¬(pyIsSpace a = true ∧ pyIsSpace b = true))
      (pyStrip (joinWith " ".toList
        ((List.filterMap
          (fun line => if pyStrip line = [] then none else some (pyStrip line))
          [y]).filter
          (fun line => decide (10 < line.length) && !pyAllSpecial line)))) ∧
    (10 < (pyStrip y).length ∧ pyAllSpecial (pyStrip y) = false →
      pyStrip (joinWith " ".toList
        ((List.filterMap
          (fun line => if pyStrip line = [] then none else some (pyStrip line))
          [y]).filter
          (fun line => decide (10 < line.length) && !pyAllSpecial line)))
        = pyStrip y) ∧
    (¬(10 < (pyStrip y).length ∧ pyAllSpecial (pyStrip y) = false) →
      pyStrip (joinWith " ".toList
        ((List.filterMap
          (fun line => if pyStrip line = [] then none else some (pyStrip line))
          [y]).filter
          (fun line => decide (10 < line.length) && !pyAllSpecial line)))
        = []) := by
  obtain ⟨x, hx⟩ : ∃ x, pyStrip y = x := ⟨_, rfl⟩
  rw [hx]
  have hfm : List.filterMap
      (fun line => if pyStrip line = [] then none else some (pyStrip line)) [y]
      = if x = [] then [] else [x] := by
    simp only [List.filterMap_cons, List.filterMap_nil, hx]
    by_cases hxe : x = [] <;> simp [hxe]
  rw [hfm]
  by_cases hxe : x = []
  · rw [if_pos hxe]
    subst hxe
    refine ⟨by simp [joinWith, pyStrip], fun h => absurd h.1 (by simp),
      fun _ => by simp [joinWith, pyStrip]⟩
  · rw [if_neg hxe]
    by_cases hcond : (decide (10 < x.length) && !pyAllSpecial x) = true
    · have hfl : List.filter
          (fun line => decide (10 < line.length) && !pyAllSpecial line) [x] = [x] := by
        simp only [List.filter_cons, List.filter_nil, hcond, if_pos]
      rw [hfl]
      have hjoin : joinWith " ".toList [x] = x := rfl
      rw [hjoin, ← hx, pyStrip_idem, hx]
      simp only [Bool.and_eq_true, decide_eq_true_eq, Bool.not_eq_true'] at hcond
      refine ⟨ List.Chain'.infix hchain (hx ▸ pyStrip_within y), fun _ => rfl,
        fun hneg => absurd hcond hneg⟩
    · have hfl : List.filter
          (fun line => decide (10 < line.length) && !pyAllSpecial line) [x] = [] := by
        simp only [List.filter_cons, List.filter_nil]
        rw [if_neg hcond]
      rw [hfl]
      simp only [Bool.and_eq_true, decide_eq_true_eq, Bool.not_eq_true'] at hcond
      refine ⟨by simp [joinWith, pyStrip], fun h => absurd h hcond,
        fun _ => by simp [joinWith, pyStrip]⟩

/-- C7 (amended): the cleaned text never contains two adjacent whitespace
characters, and — because the `\\s+` collapse (line 50) has already merged
every newline into a plain space before the line split — the per-line
filter acts on the whole collapsed text as one single line: the output is
that stripped collapsed text when it is longer than 10 characters and not
made solely of special characters, and empty otherwise.  Short or
all-special individual lines of the original input are not dropped; they
survive merged into the single collapsed line.  Processing order is
pattern removal, whitespace collapse, line split/filter, join. -/
theorem clean_text_collapse_and_filter (t : Str) :
    List.Chain' (fun a b => ¬(pyIsSpace a = true ∧ pyIsSpace b = true))
      (clean_scraped_text t) ∧
    (10 < (pyStrip (collapseWS (applyNoise t))).length ∧
        pyAllSpecial (pyStrip (collapseWS (applyNoise t))) = false →
      clean_scraped_text t = pyStrip (collapseWS (applyNoise t))) ∧
    (¬(10 < (pyStrip (collapseWS (applyNoise t))).length ∧
        pyAllSpecial (pyStrip (collapseWS (applyNoise t))) = false) →
      clean_scraped_text t = []) := by
  by_cases ht : t = []
  · subst ht
    refine ⟨by simp [clean_scraped_text], fun h => absurd h.1 (by decide),
      fun _ => by decide⟩
  · simp only [clean_scraped_text]
    rw [if_neg ht]
    have hnl : collapseNL (collapseWS (applyNoise t)) = collapseWS (applyNoise t) :=
      collapseNLAux_of_no_newline _ (newline_not_mem_collapseWS _) false
    rw [hnl]
    rw [splitOnChar_of_not_mem '\n' _ (newline_not_mem_collapseWS _)]
    with_reducible exact (clean_pipeline_char (collapseWS (applyNoise t))
      (collapseWS_chain (applyNoise t)))

/-- Counterexample for C7 as stated: the two-character input line `ab` is
10 characters or shorter, yet it appears verbatim in the cleaned output,
because the whitespace collapse has merged it with the next line before
the line filter ran. -/
theorem short_line_not_dropped :
    "ab".toList ∈ splitOnChar '\n' "ab\ncccccccccccc".toList ∧
    ("ab".toList).length ≤ 10 ∧
    clean_scraped_text "ab\ncccccccccccc".toList = "ab cccccccccccc".toList ∧
    isSubstrOf "ab".toList (clean_scraped_text "ab\ncccccccccccc".toList)
      = true := by
  refine ⟨by decide, by decide, by decide, by decide⟩

/-- Unfolding `splitWSAux` with a non-empty current word: the word is
completed by the next whitespace-free run. -/
theorem splitWSAux_ne (s : Str) : ∀ cur : Str, cur ≠ [] →
    splitWSAux cur s
      = (cur.reverse ++ s.takeWhile (fun c => !pyIsSpace c))
        :: splitWS (s.dropWhile (fun c => !pyIsSpace c)) := by
  induction s with
  | nil => intro cur h; simp [splitWSAux, splitWS, h]
  | cons x s ih =>
    intro cur h
    by_cases hx : pyIsSpace x = true
    · rw [show splitWSAux cur (x :: s) = cur.reverse :: splitWSAux [] s
          from by simp [splitWSAux, hx, h]]
      rw [List.takeWhile_cons, List.dropWhile_cons]
      simp only [hx, Bool.not_true, Bool.false_eq_true, if_false]
      rw [show splitWS (x :: s) = splitWSAux [] s
          from by simp [splitWS, splitWSAux, hx]]
      simp
    · rw [Bool.not_eq_true] at hx
      rw [show splitWSAux cur (x :: s) = splitWSAux (x :: cur) s
          from by simp [splitWSAux, hx]]
      rw [ih (x :: cur) (by simp)]
      rw [List.takeWhile_cons, List.dropWhile_cons]
      simp [hx]

/-- `splitWS` skips a leading whitespace character. -/
theorem splitWS_cons_space (x : Char) (s : Str) (hx : pyIsSpace x = true) :
    splitWS (x :: s) = splitWS s := by
  simp [splitWS, splitWSAux, hx]

/-- `splitWS` opens a word at a leading non-whitespace character. -/
theorem splitWS_cons_word (x : Char) (s : Str) (hx : pyIsSpace x = false) :
    splitWS (x :: s)
      = (x :: s.takeWhile (fun c => !pyIsSpace c))
        :: splitWS (s.dropWhile (fun c => !pyIsSpace c)) := by
  rw [show splitWS (x :: s) = splitWSAux [x] s
      from by simp [splitWS, splitWSAux, hx]]
  rw [splitWSAux_ne s [x] (by simp)]
  simp

/-- Every whitespace-split word occurs inside the original text. -/
theorem splitWS_word_within : ∀ (s : Str), ∀ w ∈ splitWS s, w <:+: s := by
  have H : ∀ (n : Nat) (s : Str), s.length ≤ n → ∀ w ∈ splitWS s, w <:+: s := by
    intro n
    induction n with
    | zero =>
      intro s hs w hw
      rw [List.length_eq_zero.mp (Nat.le_zero.mp hs)] at hw
      simp [splitWS, splitWSAux] at hw
    | succ n ih =>
      intro s hs w hw
      cases s with
      | nil => simp [splitWS, splitWSAux] at hw
      | cons x s' =>
        by_cases hx : pyIsSpace x = true
        · rw [splitWS_cons_space x s' hx] at hw
          have hw' := ih s' (by simpa using Nat.le_of_succ_le_succ hs) w hw
          exact hw'.trans (List.suffix_cons x s').isInfix
        · rw [Bool.not_eq_true] at hx
          rw [splitWS_cons_word x s' hx] at hw
          rcases List.mem_cons.mp hw with h1 | h2
          · subst h1
            refine List.IsPrefix.isInfix ?_
            rw [List.cons_prefix_cons]
            exact ⟨rfl, List.takeWhile_prefix _⟩
          · have hlen : (s'.dropWhile (fun c => !pyIsSpace c)).length ≤ n := by
              have h1 := (@List.dropWhile_sublist Char s'
                (fun c => !pyIsSpace c)).length_le
              have h2 : s'.length + 1 ≤ n + 1 := by simpa using hs
              omega
            have hw' := ih _ hlen w h2
            exact (hw'.trans (List.dropWhile_suffix _).isInfix).trans
              (List.suffix_cons x s').isInfix
  exact fun s => H s.length s le_rfl

/-- A token of `p`-characters that is a prefix of `a ++ b`, where `b`
starts with a non-`p` character, is already a prefix of `a`. -/
theorem allP_pre_left {p : Char → Bool} : ∀ (tok : Str), ∀ (a b : Str),
    (∀ c ∈ tok, p c = true) → (∀ c, b.head? = some c → p c = false) →
    tok <+: a ++ b → tok <+: a := by
  intro tok
  induction tok with
  | nil => intro a b _ _ _; exact List.nil_prefix
  | cons t tok' ih =>
    intro a b htok hb h
    cases a with
    | nil =>
      exfalso
      simp only [List.nil_append] at h
      have hhd : b.head? = some t := by
        obtain ⟨r, hr⟩ := h
        rw [← hr]
        rfl
      have := hb t hhd
      have := htok t (List.mem_cons_self _ _)
      simp_all
    | cons y a' =>
      have h' : t :: tok' <+: y :: (a' ++ b) := by simpa using h
      rw [List.cons_prefix_cons] at h'
      obtain ⟨rfl, h2⟩ := h'
      rw [List.cons_prefix_cons]
      exact ⟨rfl, ih a' b (fun c hc => htok c (List.mem_cons_of_mem _ hc)) hb h2⟩

/-- A token of `p`-characters lying inside `a ++ b`, where `b` starts with
a non-`p` character, lies inside `a` or inside `b`. -/
theorem split_across {p : Char → Bool} (tok : Str)
    (htok : ∀ c ∈ tok, p c = true) : ∀ (a b : Str),
    (∀ c, b.head? = some c → p c = false) →
    tok <:+: a ++ b → tok <:+: a ∨ tok <:+: b := by
  intro a
  induction a with
  | nil => intro b _ h; right; simpa using h
  | cons y a' ih =>
    intro b hb h
    rw [List.cons_append, List.infix_cons_iff] at h
    rcases h with hpre | hinf
    · left
      exact (allP_pre_left tok (y :: a') b htok hb (by simpa using hpre)).isInfix
    · rcases ih b hb hinf with h1 | h2
      · left
        exact h1.trans (List.suffix_cons y a').isInfix
      · right
        exact h2

/-- Bool-level reading of the substring check. -/
theorem isSubstrOf_iff (needle hay : Str) :
    isSubstrOf needle hay = true ↔ needle <:+: hay := by
  simp [isSubstrOf]

/-- A non-empty whitespace-free token contained in a text is contained in
one of the text's whitespace-split words. -/
theorem substr_in_some_word (tok : Str) (htne : tok ≠ [])
    (htok : ∀ c ∈ tok, pyIsSpace c = false) :
    ∀ s : Str, tok <:+: s → ∃ w ∈ splitWS s, tok <:+: w := by
  have htok' : ∀ c ∈ tok, (fun c => !pyIsSpace c) c = true := by
    intro c hc
    simp [htok c hc]
  have H : ∀ (n : Nat) (s : Str), s.length ≤ n → tok <:+: s →
      ∃ w ∈ splitWS s, tok <:+: w := by
    intro n
    induction n with
    | zero =>
      intro s hs h
      rw [List.length_eq_zero.mp (Nat.le_zero.mp hs)] at h
      rcases tok with _ | ⟨t, tok'⟩
      · exact absurd rfl htne
      · exact absurd (List.eq_nil_of_infix_nil h) (by simp)
    | succ n ih =>
      intro s hs h
      cases s with
      | nil =>
        rcases tok with _ | ⟨t, tok'⟩
        · exact absurd rfl htne
        · exact absurd (List.eq_nil_of_infix_nil h) (by simp)
      | cons x s' =>
        by_cases hx : pyIsSpace x = true
        · rw [List.infix_cons_iff] at h
          rcases h with hpre | hinf
          · exfalso
            rcases tok with _ | ⟨t, tok'⟩
            · exact htne rfl
            · rw [List.cons_prefix_cons] at hpre
              have := htok t (List.mem_cons_self _ _)
              rw [hpre.1] at this
              rw [this] at hx
              simp at hx
          · have hw := ih s' (by simpa using Nat.le_of_succ_le_succ hs) hinf
            rw [splitWS_cons_space x s' hx]
            exact hw
        · rw [Bool.not_eq_true] at hx
          have hsplit : (x :: s'.takeWhile (fun c => !pyIsSpace c))
              ++ s'.dropWhile (fun c => !pyIsSpace c) = x :: s' := by
            rw [List.cons_append, List.takeWhile_append_dropWhile]
          rw [← hsplit] at h
          rcases split_across tok htok' (x :: s'.takeWhile (fun c => !pyIsSpace c))
              (s'.dropWhile (fun c => !pyIsSpace c))
              (fun c hc => by
                have := head?_dropWhile_false (fun c => !pyIsSpace c) s' c hc
                simpa using this) h with h1 | h2
          · refine ⟨x :: s'.takeWhile (fun c => !pyIsSpace c), ?_, h1⟩
            rw [splitWS_cons_word x s' hx]
            exact List.mem_cons_self _ _
          · have hlen : (s'.dropWhile (fun c => !pyIsSpace c)).length ≤ n := by
              have h1 := (@List.dropWhile_sublist Char s'
                (fun c => !pyIsSpace c)).length_le
              have h2 : s'.length + 1 ≤ n + 1 := by simpa using hs
              omega
            obtain ⟨w, hw1, hw2⟩ := ih _ hlen h2
            refine ⟨w, ?_, hw2⟩
            rw [splitWS_cons_word x s' hx]
            exact List.mem_cons_of_mem _ hw1
  exact fun s => H s.length s le_rfl

/-- C6: `detect_language` answers `urdu` exactly when the text has an
Arabic-script character or some whitespace-split word of the lower-cased
text contains a Romanized-Urdu token (the spec's case-insensitive
substring match against whitespace-split words, which for these
whitespace-free tokens coincides with the source's substring test on the
whole lower-cased text), `english` in every other case; and the two
documented examples hold. -/
theorem detect_language_spec :
    (∀ t : Str, detect_language t = "urdu" ↔
      (hasArabicChar t = true ∨
        ∃ w ∈ splitWS (toLowerStr t), ∃ tok ∈ urdu_words, tok <:+: w)) ∧
    (∀ t : Str, detect_language t = "urdu" ∨ detect_language t = "english") ∧
    detect_language "mujhe red dress dikhao".toList = "urdu" ∧
    detect_language "show me a red dress".toList = "english" := by
  have htoks : ∀ tok ∈ urdu_words, tok ≠ [] ∧ ∀ c ∈ tok, pyIsSpace c = false := by
    decide
  refine ⟨?_, ?_, by decide, by decide⟩
  · intro t
    unfold detect_language
    by_cases hA : hasArabicChar t = true
    · simp [hA]
    · rw [Bool.not_eq_true] at hA
      simp only [hA, Bool.false_eq_true, if_false]
      by_cases hW : urdu_words.any (fun w => isSubstrOf w (toLowerStr t)) = true
      · rw [if_pos hW]
        constructor
        · intro _
          right
          obtain ⟨tok, htm, hsub⟩ := List.any_eq_true.mp hW
          obtain ⟨w, hw1, hw2⟩ := substr_in_some_word tok (htoks tok htm).1
            (htoks tok htm).2 (toLowerStr t) ((isSubstrOf_iff _ _).mp hsub)
          exact ⟨w, hw1, tok, htm, hw2⟩
        · intro _
          rfl
      · rw [if_neg hW]
        constructor
        · intro h
          exact absurd h (by decide)
        · intro h
          exfalso
          rcases h with h | ⟨w, hw1, tok, htm, hw2⟩
          · exact h
          · apply hW
            refine List.any_eq_true.mpr ⟨tok, htm, ?_⟩
            rw [isSubstrOf_iff]
            exact hw2.trans (splitWS_word_within (toLowerStr t) w hw1)
  · intro t
    unfold detect_language
    by_cases hA : hasArabicChar t = true
    · left
      simp [hA]
    · rw [Bool.not_eq_true] at hA
      simp only [hA, Bool.false_eq_true, if_false]
      by_cases hW : urdu_words.any (fun w => isSubstrOf w (toLowerStr t)) = true
      · left
        rw [if_pos hW]
      · right
        rw [if_neg hW]

/-- Membership in the candidate list comes from some page of the store. -/
theorem mem_allMatchesFor (q : Str) (t : ℚ) (pages : List Page)
    (excl : List Str) (e : MatchEntry) :
    e ∈ allMatchesFor q t pages excl ↔
      ∃ p ∈ pages, mkCandidate (toLowerStr q) (queryWordsOf (toLowerStr q))
        (queryColorsOf (toLowerStr q)) (queryCategoriesOf (toLowerStr q))
        t excl p = some e := by
  unfold allMatchesFor
  exact List.mem_filterMap

/-- Characterization of a successful candidate construction. -/
theorem mkCandidate_eq_some (uql : Str) (qw qc qcat : List Str) (t : ℚ)
    (ls : List Str) (p : Page) (e : MatchEntry) :
    mkCandidate uql qw qc qcat t ls p = some e ↔
      ((t ≤ (scorePage uql qw qc qcat p).1 ∧
        (scorePage uql qw qc qcat p).2 ≠ [] ∧ p.url ∉ ls) ∧
       e = ⟨p, (scorePage uql qw qc qcat p).1, (scorePage uql qw qc qcat p).2,
            pyOrStr p.title "Product".toList⟩) := by
  unfold mkCandidate
  by_cases h : t ≤ (scorePage uql qw qc qcat p).1 ∧
      (scorePage uql qw qc qcat p).2 ≠ [] ∧ p.url ∉ ls
  · rw [if_pos h]
    constructor
    · intro he
      exact ⟨h, (Option.some.inj he).symm⟩
    · rintro ⟨_, rfl⟩
      rfl
  · rw [if_neg h]
    simp [h]

/-- The head of the sorted candidate list is a candidate with maximal
score. -/
theorem sorted_head_max (c : List MatchEntry) (best : MatchEntry)
    (rest : List MatchEntry)
    (h : c.insertionSort matchDesc = best :: rest) :
    best ∈ c ∧ ∀ e ∈ c, e.score ≤ best.score := by
  have hperm := List.perm_insertionSort matchDesc c
  rw [h] at hperm
  constructor
  · exact hperm.subset (List.mem_cons_self _ _)
  · intro e he
    have hsorted := List.sorted_insertionSort matchDesc c
    rw [h] at hsorted
    rcases List.mem_cons.mp (hperm.mem_iff.mpr he) with rfl | hr
    · exact le_refl _
    · exact List.rel_of_sorted_cons hsorted e hr

/-- C1 (amended): a query that is no price query, whose lower-cased form
occurs in the non-empty cleaned excerpt of a stored page that is not
among the recent suggestions, wins with score 0.9 whenever every other
page scores at most 0.7: the matcher returns exactly that page's cleaned
excerpt, score 0.9 and display title, and appends its url to the
recent-suggestions memory. -/
theorem exact_substring_gives_top (pages : List Page) (p0 : Page) (q : Str)
    (excl : List Str) (choice : Nat)
    (hmem : p0 ∈ pages)
    (hpk : price_keywords.any (fun w => isSubstrOf w (toLowerStr q)) = false)
    (hsub : isSubstrOf (toLowerStr q)
      (toLowerStr (extract_product_info p0.content p0.title)) = true)
    (hex : extract_product_info p0.content p0.title ≠ [])
    (hexcl : p0.url ∉ excl)
    (hothers : ∀ p ∈ pages, p ≠ p0 →
      (scorePage (toLowerStr q) (queryWordsOf (toLowerStr q))
        (queryColorsOf (toLowerStr q)) (queryCategoriesOf (toLowerStr q)) p).1
        ≤ mkRat 7 10) :
    search_in_scraped_content q (mkRat 3 10) pages excl choice
      = (⟨some (extract_product_info p0.content p0.title), mkRat 9 10,
          some (pyOrStr p0.title "Product".toList)⟩,
         pushRecent excl p0.url) := by
  have hscore : scorePage (toLowerStr q) (queryWordsOf (toLowerStr q))
      (queryColorsOf (toLowerStr q)) (queryCategoriesOf (toLowerStr q)) p0
      = (mkRat 9 10, extract_product_info p0.content p0.title) := by
    simp only [scorePage]
    rw [if_pos hsub]
  have hc0 : mkCandidate (toLowerStr q) (queryWordsOf (toLowerStr q))
      (queryColorsOf (toLowerStr q)) (queryCategoriesOf (toLowerStr q))
      (mkRat 3 10) excl p0
      = some ⟨p0, mkRat 9 10, extract_product_info p0.content p0.title,
          pyOrStr p0.title "Product".toList⟩ := by
    rw [mkCandidate_eq_some, hscore]
    have h310 : mkRat 3 10 ≤ mkRat 9 10 := by decide
    exact ⟨⟨h310, hex, hexcl⟩, rfl⟩
  have hmemc : (⟨p0, mkRat 9 10, extract_product_info p0.content p0.title,
      pyOrStr p0.title "Product".toList⟩ : MatchEntry)
      ∈ allMatchesFor q (mkRat 3 10) pages excl :=
    (mem_allMatchesFor _ _ _ _ _).mpr ⟨p0, hmem, hc0⟩
  cases hs : (allMatchesFor q (mkRat 3 10) pages excl).insertionSort matchDesc with
  | nil =>
    exfalso
    have hperm := List.perm_insertionSort matchDesc
      (allMatchesFor q (mkRat 3 10) pages excl)
    rw [hs] at hperm
    exact absurd (hperm.symm.subset hmemc) (List.not_mem_nil _)
  | cons best rest =>
    obtain ⟨hbmem, hmax⟩ := sorted_head_max _ best rest hs
    obtain ⟨p, hp, hpc⟩ := (mem_allMatchesFor _ _ _ _ _).mp hbmem
    rw [mkCandidate_eq_some] at hpc
    obtain ⟨⟨hth, hne, hnl⟩, hbe⟩ := hpc
    have hb9 : mkRat 9 10 ≤ best.score := hmax _ hmemc
    by_cases hpp : p = p0
    · subst hpp
      rw [hscore] at hbe
      unfold search_in_scraped_content
      simp only [hpk, Bool.false_eq_true, if_false]
      rw [hs]
      have h79 : mkRat 7 10 < mkRat 9 10 := by decide
      have hlt : mkRat 7 10 < best.score := by
        rw [hbe]
        exact h79
      dsimp only
      rw [if_pos hlt, hbe]
    · exfalso
      have hles := hothers p hp hpp
      rw [hbe] at hb9
      exact absurd (le_trans hb9 hles) (by decide)

/-- Witness for C1: the saree page wins with score 0.9 over a low-scoring
second page. -/
theorem exact_substring_gives_top_witness :
    search_in_scraped_content "golden border".toList (mkRat 3 10)
        [sareePage, plainPage] [] 0
      = (⟨some (extract_product_info sareePage.content sareePage.title),
          mkRat 9 10, some (pyOrStr sareePage.title "Product".toList)⟩,
         pushRecent [] sareePage.url) :=
  exact_substring_gives_top [sareePage, plainPage] sareePage
    "golden border".toList [] 0 (by decide) (by decide) (by decide)
    (by decide) (by decide) (by decide)

/-- Counterexample for C1 as stated: the empty query is a substring of the
empty cleaned content of a page with empty raw content, contains no price
keyword, and the page is not excluded — yet the matcher returns the
`(None, 0, None)` sentinel, because the empty excerpt is falsy and the
page never becomes a candidate (views.py line 187). -/
theorem empty_query_empty_page_no_match :
    isSubstrOf (toLowerStr [])
      (toLowerStr (extract_product_info emptyPage.content emptyPage.title))
      = true ∧
    price_keywords.any (fun w => isSubstrOf w (toLowerStr [])) = false ∧
    emptyPage.url ∉ ([] : List Str) ∧
    search_in_scraped_content [] (mkRat 3 10) [emptyPage] [] 0
      = (⟨none, 0, none⟩, []) := by
  refine ⟨by decide, by decide, by decide, by decide⟩

/-- C2: with a non-empty candidate list (given here through its sorted
form `best :: rest`), the head of the stable descending sort carries a
maximal score; if that score exceeds 0.7 the matcher returns the head for
every random draw (deterministic top-1), and otherwise the draw index
`choice` selects exactly position `choice` of the top-three prefix — so a
uniformly distributed index yields the uniform distribution over the at
most three top candidates; in both cases the winner's url is appended to
the recent-suggestions memory. -/
theorem selection_policy (q : Str) (threshold : ℚ) (pages : List Page)
    (excl : List Str) (choice : Nat) (best : MatchEntry)
    (rest : List MatchEntry)
    (hpk : price_keywords.any (fun w => isSubstrOf w (toLowerStr q)) = false)
    (hs : (allMatchesFor q threshold pages excl).insertionSort matchDesc
      = best :: rest)
    (hch : choice < ((best :: rest).take 3).length) :
    (∀ e ∈ allMatchesFor q threshold pages excl, e.score ≤ best.score) ∧
    (mkRat 7 10 < best.score →
      ∀ ch' : Nat, search_in_scraped_content q threshold pages excl ch'
        = (⟨some best.excerpt, best.score, some best.title⟩,
           pushRecent excl best.page.url)) ∧
    (¬ mkRat 7 10 < best.score →
      ((best :: rest).take 3).getD choice best ∈ (best :: rest).take 3 ∧
      search_in_scraped_content q threshold pages excl choice
        = (⟨some (((best :: rest).take 3).getD choice best).excerpt,
            (((best :: rest).take 3).getD choice best).score,
            some (((best :: rest).take 3).getD choice best).title⟩,
           pushRecent excl
             (((best :: rest).take 3).getD choice best).page.url)) := by
  refine ⟨(sorted_head_max _ best rest hs).2, ?_, ?_⟩
  · intro hlt ch'
    unfold search_in_scraped_content
    simp only [hpk, Bool.false_eq_true, if_false]
    rw [hs]
    dsimp only
    rw [if_pos hlt]
  · intro hlt
    constructor
    · rw [List.getD_eq_getElem?_getD, List.getElem?_eq_getElem hch]
      simp only [Option.getD_some]
      exact List.getElem_mem _
    · unfold search_in_scraped_content
      simp only [hpk, Bool.false_eq_true, if_false]
      rw [hs]
      dsimp only
      rw [if_neg hlt, Nat.mod_eq_of_lt hch]

/-- Witness for C2: two candidates tie at score 0.5 for the query
`"floral work"`; draw index 1 selects the second of the top three. -/
theorem selection_policy_witness :
    (∀ e ∈ allMatchesFor "floral work".toList (mkRat 3 10)
        [floralPage, zariPage] [], e.score ≤ entryFloral.score) ∧
    (mkRat 7 10 < entryFloral.score →
      ∀ ch' : Nat, search_in_scraped_content "floral work".toList (mkRat 3 10)
        [floralPage, zariPage] [] ch'
        = (⟨some entryFloral.excerpt, entryFloral.score, some entryFloral.title⟩,
           pushRecent [] entryFloral.page.url)) ∧
    (¬ mkRat 7 10 < entryFloral.score →
      ((entryFloral :: [entryZari]).take 3).getD 1 entryFloral
        ∈ (entryFloral :: [entryZari]).take 3 ∧
      search_in_scraped_content "floral work".toList (mkRat 3 10)
        [floralPage, zariPage] [] 1
        = (⟨some (((entryFloral :: [entryZari]).take 3).getD 1 entryFloral).excerpt,
            (((entryFloral :: [entryZari]).take 3).getD 1 entryFloral).score,
            some (((entryFloral :: [entryZari]).take 3).getD 1 entryFloral).title⟩,
           pushRecent []
             (((entryFloral :: [entryZari]).take 3).getD 1 entryFloral).page.url)) :=
  selection_policy "floral work".toList (mkRat 3 10) [floralPage, zariPage]
    [] 1 entryFloral [entryZari] (by decide) (by decide) (by decide)
